import Mathlib

/-!
Verification of the syllabus-section extractor.

A shallow embedding of `src/api/pdf_syllabus_parseer.py`.  Document text is
modelled as `List Char`.  The Python functions `extract_section`,
`extract_section_with_boundaries`, `extract_section_multiple`,
`filter_late_policy`, the per-spec orchestration loop of the `/extract`
endpoint, and the two text-acquisition functions are translated below.

The regex `(?i)H\s*[:\n]+\s*(.*?)(?=LOOK|\Z)` (with `re.DOTALL`) used by the
extraction functions is embedded operationally, following the backtracking
semantics of the Python `re` module:
- `re.search` tries each start position left to right; the whole pattern
  matches at a position iff the heading matches there case-insensitively and
  the separator `\s*[:\n]+\s*` matches after it (the lazy capture followed by
  a lookahead containing `\Z` always succeeds);
- greedy `\s*` backtracks just enough for `[:\n]+` to consume at least one
  character, so the separator consumes: the longest whitespace prefix whose
  following character is a colon or newline, then the maximal `[:\n]` run,
  then the maximal whitespace run;
- the lazy capture `(.*?)` stops at the earliest offset where the lookahead
  holds; the `(?i)` flag applies to the whole pattern, so the character
  classes `[A-Z]` and `[a-z]` inside the generic lookahead match letters of
  either case.
Case-insensitive comparison is modelled by ASCII lowercasing (the inputs of
interest are ASCII); the Python whitespace and line-break character sets are
modelled by their ASCII/Latin-1 members.
-/

namespace PdfTester

/-- Python `\s` / `str.strip` whitespace, restricted to ASCII/Latin-1. -/
def isSpace (c : Char) : Bool :=
  c == ' ' || c == '\t' || c == '\n' || c == '\r' || c == '\x0b' || c == '\x0c' ||
  c == '\x1c' || c == '\x1d' || c == '\x1e' || c == '\x1f' || c == '\x85' || c == '\xa0'

/-- The character class `[:\n]` of the heading-terminator part of the pattern. -/
def isColonNl (c : Char) : Bool :=
  c == ':' || c == '\n'

/-- The class `[A-Z]` under the `(?i)` flag: any ASCII letter. -/
def inClassUpperCI (c : Char) : Bool :=
  (decide ('A' ≤ c) && decide (c ≤ 'Z')) || (decide ('a' ≤ c) && decide (c ≤ 'z'))

/-- The class `[a-z]` under the `(?i)` flag: any ASCII letter. -/
def inClassLowerCI (c : Char) : Bool :=
  (decide ('a' ≤ c) && decide (c ≤ 'z')) || (decide ('A' ≤ c) && decide (c ≤ 'Z'))

/-- Case-insensitive prefix test (Python `(?i)` literal matching). -/
def isPrefixCI : List Char → List Char → Bool
  | [], _ => true
  | _ :: _, [] => false
  | p :: ps, c :: cs => (p.toLower == c.toLower) && isPrefixCI ps cs

/-- Length of the maximal prefix of `s` all of whose characters satisfy `p`. -/
def countWhile (p : Char → Bool) : List Char → Nat
  | [] => 0
  | c :: cs => if p c then countWhile p cs + 1 else 0

/-- Python `str.strip()`: drop whitespace from both ends. -/
def stripChars (s : List Char) : List Char :=
  ((s.dropWhile isSpace).reverse.dropWhile isSpace).reverse

/-- Whether the character at index `i` of `s` satisfies `p` (false past the end). -/
def charAtIs (p : Char → Bool) (s : List Char) (i : Nat) : Bool :=
  match s.drop i with
  | [] => false
  | c :: _ => p c

/-- Backtracking of the greedy `\s*` before `[:\n]+`: the largest `L` not
exceeding the given bound (the maximal-whitespace-run length) such that the
character at index `L` is a colon or newline. -/
def findSepStart (s : List Char) : Nat → Option Nat
  | 0 => if charAtIs isColonNl s 0 then some 0 else none
  | L + 1 => if charAtIs isColonNl s (L + 1) then some (L + 1) else findSepStart s L

/-- Match `\s*[:\n]+\s*` at the start of `s`; returns the number of characters
consumed (the offset where the lazy capture begins), or `none`. -/
def matchSep (s : List Char) : Option Nat :=
  match findSepStart s (countWhile isSpace s) with
  | none => none
  | some L =>
    let cnt := countWhile isColonNl (s.drop L)
    let ws2 := countWhile isSpace (s.drop (L + cnt))
    some (L + cnt + ws2)

/-- Try the heading-plus-separator part of the pattern at the start of `s`;
returns the capture-start offset from the start of `s`, or `none`. -/
def tryAt (heading s : List Char) : Option Nat :=
  if isPrefixCI heading s then
    (matchSep (s.drop heading.length)).map (fun k => heading.length + k)
  else none

/-- `re.search`: scan start positions left to right; at the first position
where heading and separator match, return the capture-start offset measured
from the start of `s`. -/
def searchCapture (heading : List Char) : List Char → Option Nat
  | [] => tryAt heading []
  | c :: rest =>
    match tryAt heading (c :: rest) with
    | some k => some k
    | none => (searchCapture heading rest).map (· + 1)

/-- The lookahead `(?=\n[A-Z][a-z]|\Z)` of `extract_section`, evaluated at a
suffix of the text.  Because `(?i)` governs the whole pattern, both classes
match any ASCII letter. -/
def lookaheadGeneric (s : List Char) : Bool :=
  match s with
  | [] => true
  | c :: rest =>
    c == '\n' &&
      (match rest with
       | c1 :: c2 :: _ => inClassUpperCI c1 && inClassLowerCI c2
       | _ => false)

/-- The lookahead `(?=\nB1|\nB2|...|\Z)` of `extract_section_with_boundaries`.
With an empty candidate list the joined alternation is the empty pattern,
which matches everywhere. -/
def lookaheadBoundary (bs : List (List Char)) (s : List Char) : Bool :=
  if bs.isEmpty then true
  else
    match s with
    | [] => true
    | c :: rest => c == '\n' && bs.any (fun b => isPrefixCI b rest)

/-- Length of the lazy capture `(.*?)` before the first suffix where the
lookahead holds (under `re.DOTALL` the capture may cross newlines). -/
def captureLen (look : List Char → Bool) : List Char → Nat
  | [] => 0
  | c :: rest => if look (c :: rest) then 0 else captureLen look rest + 1

/-- `extract_section(text, section_heading)` (lines 70-84 of the source):
search for the heading followed by `\s*[:\n]+\s*`, capture lazily up to the
next line that begins with two letters (or end of text), and strip. -/
def extract_section (text heading : List Char) : Option (List Char) :=
  match searchCapture heading text with
  | none => none
  | some cs =>
    let s := text.drop cs
    some (stripChars (s.take (captureLen lookaheadGeneric s)))

/-- `extract_section_with_boundaries(text, start_heading, end_boundaries)`
(lines 86-102): like `extract_section` but the capture stops at the earliest
line break followed by one of the boundary candidates. -/
def extract_section_with_boundaries (text heading : List Char)
    (bs : List (List Char)) : Option (List Char) :=
  match searchCapture heading text with
  | none => none
  | some cs =>
    let s := text.drop cs
    some (stripChars (s.take (captureLen (lookaheadBoundary bs) s)))

/-- The pattern of the per-heading loops in the source (`extract_section_multiple`
and the boundary loop of the endpoint): return the first Python-truthy result,
i.e. the first result that is neither `None` nor the empty string. -/
def firstTruthy (f : List Char → Option (List Char)) : List (List Char) → Option (List Char)
  | [] => none
  | h :: hs =>
    match f h with
    | some s => if s.isEmpty then firstTruthy f hs else some s
    | none => firstTruthy f hs

/-- `extract_section_multiple(text, possible_headings)` (lines 104-118). -/
def extract_section_multiple (text : List Char) (headings : List (List Char)) :
    Option (List Char) :=
  firstTruthy (extract_section text) headings

/-- The line-boundary characters of Python `str.splitlines`, restricted to
ASCII/Latin-1 (`\r\n` is treated as a single boundary by `splitlines` below). -/
def isLineBreakChar (c : Char) : Bool :=
  c == '\n' || c == '\r' || c == '\x0b' || c == '\x0c' ||
  c == '\x1c' || c == '\x1d' || c == '\x1e' || c == '\x85'

/-- Python `str.splitlines()`: split at line boundaries, `\r\n` counting as
one boundary; a trailing boundary does not produce a trailing empty line. -/
def splitlines : List Char → List (List Char)
  | [] => []
  | '\r' :: '\n' :: rest => [] :: splitlines rest
  | c :: rest =>
    if isLineBreakChar c then [] :: splitlines rest
    else
      match splitlines rest with
      | [] => [[c]]
      | l :: ls => (c :: l) :: ls

/-- The Python substring test `needle in hay` on strings. -/
def isSubstrOf (needle : List Char) : List Char → Bool
  | [] => needle.isEmpty
  | c :: rest => needle.isPrefixOf (c :: rest) || isSubstrOf needle rest

/-- The keyword test of `filter_late_policy`:
`"late" in line.lower() or "penalty" in line.lower()`. -/
def keepLine (l : List Char) : Bool :=
  isSubstrOf ("late".toList) (l.map Char.toLower) ||
  isSubstrOf ("penalty".toList) (l.map Char.toLower)

/-- `filter_late_policy(text)` (lines 120-131): keep the lines mentioning
"late" or "penalty" (case-insensitively), strip each kept line, and rejoin
with line breaks. -/
def filter_late_policy (text : List Char) : List Char :=
  List.intercalate ['\n'] (((splitlines text).filter keepLine).map stripChars)

/-! ## Per-spec orchestration of the `/extract` endpoint (lines 161-194) -/

/-- One entry of the `sections` dictionary of the endpoint. -/
structure SectionSpec where
  name : List Char
  headings : List (List Char)
  boundaries : Option (List (List Char))
  deriving Repr, DecidableEq

/-- The static `sections` configuration of the endpoint. -/
def sectionSpecs : List SectionSpec :=
  [ { name := "Late Policy".toList
      headings := [("Homework:".toList)]
      boundaries := none },
    { name := "Grading Policy".toList
      headings := [("Grading Scale:".toList), ("Grading Scale".toList)]
      boundaries := some [("Attendance".toList), ("Course Policies".toList)] },
    { name := "Grading Weights".toList
      headings := [("Grade Evaluation:".toList), ("Grade Evaluation".toList),
                   ("Graded Work:".toList), ("Graded Work".toList)]
      boundaries := some [("Grading Scale".toList)] } ]

/-- The section-location part of the endpoint loop body (lines 180-189):
with Python-truthy boundaries, try each heading with
`extract_section_with_boundaries` and fall back to `extract_section_multiple`
if no heading produced a truthy result; otherwise use
`extract_section_multiple` directly. -/
def processSpecText (text : List Char) (headings : List (List Char))
    (boundaries : Option (List (List Char))) : Option (List Char) :=
  match boundaries with
  | some bs =>
    if bs.isEmpty then extract_section_multiple text headings
    else
      match firstTruthy (fun h => extract_section_with_boundaries text h bs) headings with
      | some s => some s
      | none => extract_section_multiple text headings
  | none => extract_section_multiple text headings

/-- The full loop body for one spec (lines 180-192): locate the section, then
for the Late Policy spec apply `filter_late_policy` to a truthy result. -/
def processSpec (text : List Char) (spec : SectionSpec) : Option (List Char) :=
  let st := processSpecText text spec.headings spec.boundaries
  if spec.name = "Late Policy".toList then
    match st with
    | some s => if s.isEmpty then some s else some (filter_late_policy s)
    | none => none
  else st

/-- The `extracted_data` mapping assembled by the endpoint (lines 176-194),
as an association list in the insertion order of the dictionary. -/
def extract_pdf_sections (text : List Char) : List (List Char × Option (List Char)) :=
  sectionSpecs.map (fun spec => (spec.name, processSpec text spec))

/-! ## Text acquisition (lines 12-31, 47-68, 157-159)

The external PDF capabilities are modelled as oracles: the direct path either
yields the per-page text layers (`none` for a page without one) or raises,
and the OCR path either yields per-page recognized text or raises.  `sys.exit(1)`
in the two `except` blocks is modelled as the fatal outcome `Except.error`. -/

/-- Outcome of the pdfplumber text-layer pass over a document. -/
inductive DirectResult where
  | ok : List (Option (List Char)) → DirectResult
  | err : DirectResult
  deriving Repr, DecidableEq

/-- Outcome of the rasterize-preprocess-OCR pass over a document. -/
inductive OcrResult where
  | ok : List (List Char) → OcrResult
  | err : OcrResult
  deriving Repr, DecidableEq

/-- The page loop of `extract_text_from_pdf`: concatenate each Python-truthy
page text followed by a line break (`if page_text:` skips `None` and `""`). -/
def directText (pages : List (Option (List Char))) : List Char :=
  pages.foldl
    (fun acc p =>
      match p with
      | some t => if t.isEmpty then acc else acc ++ t ++ ['\n']
      | none => acc)
    []

/-- `extract_text_from_pdf(pdf_path)` (lines 12-31): any exception aborts
fatally (`sys.exit(1)`). -/
def extract_text_from_pdf : DirectResult → Except Unit (List Char)
  | .ok pages => .ok (directText pages)
  | .err => .error ()

/-- `extract_text_with_ocr(pdf_path)` (lines 47-68): concatenate per-page OCR
text with trailing line breaks; any exception aborts fatally. -/
def extract_text_with_ocr : OcrResult → Except Unit (List Char)
  | .ok pages => .ok (pages.foldl (fun acc t => acc ++ t ++ ['\n']) [])
  | .err => .error ()

/-- The OCR-fallback test of line 158:
`not pdf_text.strip() or pdf_text.strip().startswith("%PDF")`. -/
def fallbackCond (t : List Char) : Bool :=
  (stripChars t).isEmpty || ("%PDF".toList).isPrefixOf (stripChars t)

/-- Lines 157-159 of the endpoint: take the direct text; if it is whitespace
or starts (after stripping) with the raw-PDF marker, use the OCR text instead. -/
def acquireText (d : DirectResult) (o : OcrResult) : Except Unit (List Char) :=
  match extract_text_from_pdf d with
  | .error e => .error e
  | .ok t => if fallbackCond t then extract_text_with_ocr o else .ok t

/-! ## Derived offset views of the two end-boundary computations -/

/-- The end offset computed by the generic-heuristic lookahead for a capture
starting at `start`: the offset where the lazy capture stops, i.e. the offset
of the line break that introduces the earliest following two-letter line, or
the end of the text when no such line exists. -/
def resolveEndGeneric (text : List Char) (start : Nat) : Nat :=
  start + captureLen lookaheadGeneric (text.drop start)

/-- The end offset computed by the explicit-boundary lookahead for a capture
starting at `start`: the offset of the line break that immediately precedes
the earliest occurrence of any boundary candidate at a line start, or the end
of the text when no candidate occurs. -/
def resolveEndBoundaries (text : List Char) (start : Nat) (bs : List (List Char)) : Nat :=
  start + captureLen (lookaheadBoundary bs) (text.drop start)

/-- A boundary-pattern occurrence at offset `u`: a line break immediately
followed by one of the candidates (matched case-insensitively). -/
def boundaryOccursAt (text : List Char) (u : Nat) (bs : List (List Char)) : Bool :=
  match text.drop u with
  | [] => false
  | c :: rest => c == '\n' && bs.any (fun b => isPrefixCI b rest)

/-- A generic-lookahead occurrence at offset `u`: a line break immediately
followed by two characters of the classes `[A-Z]` and `[a-z]`, which the
`(?i)` flag of the source pattern makes case-insensitive. -/
def genericOccursAt (text : List Char) (u : Nat) : Bool :=
  match text.drop u with
  | c :: c1 :: c2 :: _ => c == '\n' && (inClassUpperCI c1 && inClassLowerCI c2)
  | _ => false

/-- Following the words of the spec, for comparison with `genericOccursAt`:
the case-sensitive structural check the spec describes for the generic
heuristic, an uppercase letter `[A-Z]` then a lowercase letter `[a-z]` after
a line break, with no case folding. -/
def specGenericOccursAtCaseSensitive (text : List Char) (u : Nat) : Bool :=
  match text.drop u with
  | c :: c1 :: c2 :: _ =>
    c == '\n' && (decide ('A' ≤ c1) && decide (c1 ≤ 'Z')) &&
      (decide ('a' ≤ c2) && decide (c2 ≤ 'z'))
  | _ => false

/-! ## Concrete inputs used by the claims -/

/-- The text of end-to-end scenario 1 of the spec. -/
def scenario1Text : List Char :=
  "Homework:\nLate work loses 10% per day.\nNo penalty within 24 hours.\nAttendance is mandatory.".toList

/-- The Late Policy entry of the `sections` configuration. -/
def latePolicySpec : SectionSpec :=
  { name := "Late Policy".toList
    headings := [("Homework:".toList)]
    boundaries := none }

/-- A text whose only line after the section body starts with two lowercase
letters. -/
def lowerLineText : List Char := "Homework:\nThings\nitem one".toList

/-- A text whose only line after the section body starts with two uppercase
letters. -/
def upperLineText : List Char := "Homework:\nThings\nABC DEF".toList

/-- The text of end-to-end scenario 3 of the spec: only the later heading
candidate "Graded Work:" is present. -/
def gradedWorkText : List Char := "Graded Work:\nHomework 50%\nExams 50%".toList

/-- The text of end-to-end scenario 2 of the spec. -/
def gradingScaleText : List Char :=
  "Grading Scale:\nA 90-100\nB 80-89\nAttendance Policy\nmore text".toList

end PdfTester

namespace PdfTester

/-! ## Helper lemmas -/

theorem captureLen_le_length (look : List Char → Bool) (s : List Char) :
    captureLen look s ≤ s.length := by
  induction s with
  | nil => simp [captureLen]
  | cons c rest ih =>
    rw [captureLen]
    split
    · exact Nat.zero_le _
    · simpa [List.length_cons] using Nat.succ_le_succ ih

theorem look_at_captureLen {look : List Char → Bool} {s : List Char}
    (h : captureLen look s < s.length) : look (s.drop (captureLen look s)) = true := by
  induction s with
  | nil => simp [captureLen] at h
  | cons c rest ih =>
    rw [captureLen] at h ⊢
    by_cases hl : look (c :: rest)
    · simp [hl]
    · rw [if_neg hl] at h ⊢
      rw [List.drop_succ_cons]
      apply ih
      simp only [List.length_cons] at h
      omega

theorem captureLen_min {look : List Char → Bool} {s : List Char} {j : Nat}
    (hj : j < captureLen look s) : look (s.drop j) = false := by
  induction s generalizing j with
  | nil => simp [captureLen] at hj
  | cons c rest ih =>
    rw [captureLen] at hj
    by_cases hl : look (c :: rest)
    · rw [if_pos hl] at hj; omega
    · rw [if_neg hl] at hj
      cases j with
      | zero => simpa using hl
      | succ j =>
        rw [List.drop_succ_cons]
        exact ih (Nat.lt_of_succ_lt_succ hj)

theorem drop_ne_nil_of_lt {text : List Char} {u : Nat} (h : u < text.length) :
    text.drop u ≠ [] := by
  have hlen : (text.drop u).length = text.length - u := List.length_drop _ _
  intro heq
  rw [heq] at hlen
  simp at hlen
  omega

theorem lookaheadGeneric_eq_occursAt {text : List Char} {u : Nat} (h : u < text.length) :
    lookaheadGeneric (text.drop u) = genericOccursAt text u := by
  cases hd : text.drop u with
  | nil => exact absurd hd (drop_ne_nil_of_lt h)
  | cons c rest =>
    cases rest with
    | nil => simp [lookaheadGeneric, genericOccursAt, hd]
    | cons c1 rest1 =>
      cases rest1 with
      | nil => simp [lookaheadGeneric, genericOccursAt, hd]
      | cons c2 t => simp [lookaheadGeneric, genericOccursAt, hd, Bool.and_assoc]

theorem lookaheadBoundary_eq_occursAt {text : List Char} {u : Nat} {bs : List (List Char)}
    (hbs : bs ≠ []) (h : u < text.length) :
    lookaheadBoundary bs (text.drop u) = boundaryOccursAt text u bs := by
  have hbe : bs.isEmpty = false := List.isEmpty_eq_false.mpr hbs
  cases hd : text.drop u with
  | nil => exact absurd hd (drop_ne_nil_of_lt h)
  | cons c rest => simp [lookaheadBoundary, boundaryOccursAt, hd, hbe]

theorem firstTruthy_cons_falsy {f : List Char → Option (List Char)} {h : List Char}
    {hs : List (List Char)} (hf : f h = none ∨ f h = some []) :
    firstTruthy f (h :: hs) = firstTruthy f hs := by
  rw [firstTruthy]
  rcases hf with hf | hf
  · rw [hf]
  · rw [hf]
    simp

theorem firstTruthy_cons_truthy {f : List Char → Option (List Char)} {h s : List Char}
    (hf : f h = some s) (hs0 : s ≠ []) (hs : List (List Char)) :
    firstTruthy f (h :: hs) = some s := by
  rw [firstTruthy, hf]
  simp [List.isEmpty_eq_false.mpr hs0]

theorem firstTruthy_ne_nil {f : List Char → Option (List Char)} {hs : List (List Char)}
    {s : List Char} (hfe : firstTruthy f hs = some s) : s ≠ [] := by
  induction hs with
  | nil => simp [firstTruthy] at hfe
  | cons h t ih =>
    cases hfh : f h with
    | none =>
      rw [firstTruthy_cons_falsy (Or.inl hfh)] at hfe
      exact ih hfe
    | some v =>
      by_cases hv : v = []
      · subst hv
        rw [firstTruthy_cons_falsy (Or.inr hfh)] at hfe
        exact ih hfe
      · rw [firstTruthy_cons_truthy hfh hv t] at hfe
        cases hfe
        exact hv

theorem firstTruthy_eq_none_of {f : List Char → Option (List Char)} {hs : List (List Char)}
    (hall : ∀ h ∈ hs, f h = none ∨ f h = some []) : firstTruthy f hs = none := by
  induction hs with
  | nil => rfl
  | cons h t ih =>
    rw [firstTruthy_cons_falsy (hall h (List.mem_cons_self h t))]
    exact ih (fun g hg => hall g (List.mem_cons_of_mem h hg))

theorem splitlines_cons_nl (rest : List Char) :
    splitlines ('\n' :: rest) = [] :: splitlines rest := rfl

theorem splitlines_cons_nonbreak {c : Char} (hc : isLineBreakChar c = false)
    (rest : List Char) :
    splitlines (c :: rest) =
      match splitlines rest with
      | [] => [[c]]
      | l :: ls => (c :: l) :: ls := by
  have hr : c ≠ '\r' := by
    rintro rfl
    simp [isLineBreakChar] at hc
  rw [splitlines.eq_def]
  split
  · rename_i heq
    simp at heq
  · rename_i r heq
    rw [List.cons.injEq] at heq
    exact absurd heq.1 hr
  · rename_i c2 r2 hno hne
    rw [List.cons.injEq] at hne
    obtain ⟨rfl, rfl⟩ := hne
    rw [if_neg (by simp [hc])]

theorem intercalate_singleton_line (s l : List Char) : List.intercalate s [l] = l := by
  simp [List.intercalate, List.intersperse]

theorem intercalate_cons_cons_line (s l1 l2 : List Char) (ls : List (List Char)) :
    List.intercalate s (l1 :: l2 :: ls) = l1 ++ s ++ List.intercalate s (l2 :: ls) := by
  simp [List.intercalate, List.intersperse]

theorem splitlines_append_nl {l : List Char} (hl : ∀ c ∈ l, isLineBreakChar c = false)
    (rest : List Char) :
    splitlines (l ++ '\n' :: rest) = l :: splitlines rest := by
  induction l with
  | nil => simp [splitlines_cons_nl]
  | cons c l ih =>
    have hc : isLineBreakChar c = false := hl c (List.mem_cons_self _ _)
    have hl' : ∀ x ∈ l, isLineBreakChar x = false :=
      fun x hx => hl x (List.mem_cons_of_mem _ hx)
    rw [List.cons_append, splitlines_cons_nonbreak hc, ih hl']

theorem splitlines_of_no_break : ∀ (l : List Char),
    (∀ c ∈ l, isLineBreakChar c = false) → l ≠ [] → splitlines l = [l]
  | [], _, hne => absurd rfl hne
  | [c], hl, _ => by
    rw [splitlines_cons_nonbreak (hl c (List.mem_cons_self _ _))]
    rfl
  | c :: d :: t, hl, _ => by
    rw [splitlines_cons_nonbreak (hl c (List.mem_cons_self _ _))]
    rw [splitlines_of_no_break (d :: t)
      (fun x hx => hl x (List.mem_cons_of_mem _ hx)) (by simp)]

theorem splitlines_intercalate : ∀ (ls : List (List Char)),
    (∀ l ∈ ls, (∀ c ∈ l, isLineBreakChar c = false) ∧ l ≠ []) →
    splitlines (List.intercalate ['\n'] ls) = ls
  | [], _ => rfl
  | [l], h => by
    rw [intercalate_singleton_line]
    exact splitlines_of_no_break l (h l (List.mem_singleton.mpr rfl)).1
      (h l (List.mem_singleton.mpr rfl)).2
  | l1 :: l2 :: ls, h => by
    rw [intercalate_cons_cons_line]
    have hassoc : l1 ++ ['\n'] ++ List.intercalate ['\n'] (l2 :: ls) =
        l1 ++ '\n' :: List.intercalate ['\n'] (l2 :: ls) := by simp
    rw [hassoc, splitlines_append_nl (h l1 (List.mem_cons_self _ _)).1]
    rw [splitlines_intercalate (l2 :: ls) (fun x hx => h x (List.mem_cons_of_mem _ hx))]

theorem splitlines_no_break (t : List Char) : ∀ l ∈ splitlines t, ∀ x ∈ l,
    isLineBreakChar x = false := by
  induction t using splitlines.induct with
  | case1 => simp [splitlines]
  | case2 rest ih =>
    intro l hl x hx
    rw [splitlines] at hl
    rcases List.mem_cons.mp hl with rfl | hl'
    · exact absurd hx (List.not_mem_nil x)
    · exact ih l hl' x hx
  | case3 c rest hno hbr ih =>
    intro l hl x hx
    rw [splitlines.eq_def] at hl
    split at hl
    · rename_i heq; simp at heq
    · rename_i r heq
      rw [List.cons.injEq] at heq
      exact (hno r heq.1 heq.2).elim
    · rename_i c2 r2 hno2 hne
      rw [List.cons.injEq] at hne
      obtain ⟨rfl, rfl⟩ := hne
      rw [if_pos hbr] at hl
      rcases List.mem_cons.mp hl with rfl | hl'
      · exact absurd hx (List.not_mem_nil x)
      · exact ih l hl' x hx
  | case4 c rest hno hbr hsr ih =>
    intro l hl x hx
    rw [splitlines.eq_def] at hl
    split at hl
    · rename_i heq; simp at heq
    · rename_i r heq
      rw [List.cons.injEq] at heq
      exact (hno r heq.1 heq.2).elim
    · rename_i c2 r2 hno2 hne
      rw [List.cons.injEq] at hne
      obtain ⟨rfl, rfl⟩ := hne
      rw [if_neg hbr, hsr] at hl
      rcases List.mem_singleton.mp hl with rfl
      rcases List.mem_singleton.mp hx with rfl
      simpa using hbr
  | case5 c rest hno hbr l0 ls0 hsr ih =>
    intro l hl x hx
    rw [splitlines.eq_def] at hl
    split at hl
    · rename_i heq; simp at heq
    · rename_i r heq
      rw [List.cons.injEq] at heq
      exact (hno r heq.1 heq.2).elim
    · rename_i c2 r2 hno2 hne
      rw [List.cons.injEq] at hne
      obtain ⟨rfl, rfl⟩ := hne
      rw [if_neg hbr, hsr] at hl
      rcases List.mem_cons.mp hl with rfl | hl'
      · rcases List.mem_cons.mp hx with rfl | hx'
        · simpa using hbr
        · exact ih l0 (by rw [hsr]; exact List.mem_cons_self _ _) x hx'
      · exact ih l (by rw [hsr]; exact List.mem_cons_of_mem _ hl') x hx

theorem mem_of_mem_stripChars {c : Char} {l : List Char} (h : c ∈ stripChars l) : c ∈ l := by
  unfold stripChars at h
  rw [List.mem_reverse] at h
  have h1 := (List.dropWhile_sublist _).subset h
  rw [List.mem_reverse] at h1
  exact (List.dropWhile_sublist _).subset h1

theorem all_space_of_stripChars_eq_nil {l : List Char} (h : stripChars l = []) :
    ∀ c ∈ l, isSpace c = true := by
  unfold stripChars at h
  rw [List.reverse_eq_nil_iff, List.dropWhile_eq_nil_iff] at h
  intro c hc
  have hsplit := List.takeWhile_append_dropWhile isSpace l
  rw [← hsplit] at hc
  rcases List.mem_append.mp hc with hc' | hc'
  · exact List.mem_takeWhile_imp hc'
  · exact h c (List.mem_reverse.mpr hc')

theorem exists_of_isSubstrOf : ∀ {n hay : List Char}, isSubstrOf n hay = true →
    ∃ pre suf, hay = pre ++ n ++ suf := by
  intro n hay
  induction hay with
  | nil =>
    intro h
    rw [isSubstrOf] at h
    refine ⟨[], [], ?_⟩
    rw [List.isEmpty_iff.mp h]
    rfl
  | cons c rest ih =>
    intro h
    rw [isSubstrOf] at h
    rcases Bool.or_eq_true_iff.mp h with h' | h'
    · obtain ⟨t, ht⟩ := List.isPrefixOf_iff_prefix.mp h'
      exact ⟨[], t, by simp [← ht]⟩
    · obtain ⟨pre, suf, heq⟩ := ih h'
      exact ⟨c :: pre, suf, by simp [heq]⟩

theorem toLower_space {c : Char} (hc : isSpace c = true) : c.toLower = c := by
  have hmem : c = ' ' ∨ c = '\t' ∨ c = '\n' ∨ c = '\r' ∨ c = '\x0b' ∨ c = '\x0c' ∨
      c = '\x1c' ∨ c = '\x1d' ∨ c = '\x1e' ∨ c = '\x1f' ∨ c = '\x85' ∨ c = '\xa0' := by
    simpa [isSpace, or_assoc] using hc
  rcases hmem with rfl|rfl|rfl|rfl|rfl|rfl|rfl|rfl|rfl|rfl|rfl|rfl <;> rfl

theorem keep_strip_ne_nil {l : List Char} (hk : keepLine l = true) : stripChars l ≠ [] := by
  intro hnil
  have hsp := all_space_of_stripChars_eq_nil hnil
  have hwit : ∃ d, d ∈ l.map Char.toLower ∧ isSpace d = false := by
    rw [keepLine] at hk
    rcases Bool.or_eq_true_iff.mp hk with hk' | hk'
    · obtain ⟨pre, suf, heq⟩ := exists_of_isSubstrOf hk'
      refine ⟨'a', ?_, by decide⟩
      rw [heq]
      exact List.mem_append.mpr (Or.inl (List.mem_append.mpr (Or.inr (by decide))))
    · obtain ⟨pre, suf, heq⟩ := exists_of_isSubstrOf hk'
      refine ⟨'p', ?_, by decide⟩
      rw [heq]
      exact List.mem_append.mpr (Or.inl (List.mem_append.mpr (Or.inr (by decide))))
  obtain ⟨d, hd, hdn⟩ := hwit
  obtain ⟨c, hcmem, hct⟩ := List.mem_map.mp hd
  have hspc := hsp c hcmem
  rw [toLower_space hspc] at hct
  subst hct
  rw [hspc] at hdn
  cases hdn

/-! ## Claims -/

/-- Claim C1 (counterexample): on the text of end-to-end scenario 1, the Late
Policy extraction does not return both keyword lines.  The generic lookahead
already stops the section at the line break before "No penalty within 24
hours." (the letters N, o match the lookahead classes), so that keyword line
never reaches the filter. -/
theorem C1_scenario1_counterexample :
    decide (processSpec scenario1Text latePolicySpec =
      some ("Late work loses 10% per day.\nNo penalty within 24 hours.".toList)) = false := by
  decide

/-- Claim C1 (amended): on the text of scenario 1 the Late Policy extraction
yields exactly "Late work loses 10% per day.".  The located section already
ends before the "No penalty within 24 hours." line — the end boundary, not
the keyword filter, removes it, and the Attendance line with it. -/
theorem C1_scenario1_amended :
    processSpec scenario1Text latePolicySpec = some ("Late work loses 10% per day.".toList) ∧
    extract_section scenario1Text ("Homework:".toList) =
      some ("Late work loses 10% per day.".toList) := by
  constructor <;> decide

/-- Claim C2 (counterexample): the structural line-start check is not
case-sensitive.  In both `lowerLineText` (next line "item one") and
`upperLineText` (next line "ABC DEF") no position at or after the
heading-match end (offset 10, the capture start after "Homework:\n")
satisfies the case-sensitive uppercase-then-lowercase check described by the
spec, so under the claim both sections would extend to the end of the text;
the code instead terminates both sections at those lines and returns
"Things". -/
theorem C2_case_sensitivity_counterexample :
    extract_section lowerLineText ("Homework:".toList) = some ("Things".toList) ∧
    extract_section upperLineText ("Homework:".toList) = some ("Things".toList) ∧
    (List.range' 10 (lowerLineText.length - 10)).all
      (fun u => !specGenericOccursAtCaseSensitive lowerLineText u) = true ∧
    (List.range' 10 (upperLineText.length - 10)).all
      (fun u => !specGenericOccursAtCaseSensitive upperLineText u) = true ∧
    decide (extract_section lowerLineText ("Homework:".toList) =
      some ("Things\nitem one".toList)) = false ∧
    decide (extract_section upperLineText ("Homework:".toList) =
      some ("Things\nABC DEF".toList)) = false := by
  refine ⟨by decide, by decide, by decide, by decide, by decide, by decide⟩

/-- Claim C3 (counterexample): an unrecoverable error on the direct path
alone aborts the whole acquisition (`sys.exit(1)`), even though the OCR path
would succeed — so acquisition does not fail "only when both extraction paths
raise unrecoverable errors". -/
theorem C3_direct_error_counterexample :
    acquireText .err (.ok [("recovered".toList)]) = .error () ∧
    extract_text_with_ocr (.ok [("recovered".toList)]) = .ok ("recovered\n".toList) :=
  ⟨rfl, rfl⟩

/-- Claim C3 (amended): acquisition fails exactly when the path it actually
attempts raises: a direct-path error aborts immediately (OCR is never
attempted), and an OCR-path error aborts when the fallback is taken;
otherwise the acquired text is returned — an error is never silently replaced
by partial text. -/
theorem C3_fatal_on_attempted_path (d : DirectResult) (o : OcrResult) :
    acquireText d o = .error () ↔
      d = .err ∨
        (∃ pages, d = .ok pages ∧ fallbackCond (directText pages) = true ∧ o = .err) := by
  cases d with
  | err => simp [acquireText, extract_text_from_pdf]
  | ok pages =>
    cases o with
    | err =>
      by_cases hc : fallbackCond (directText pages) <;>
        simp [acquireText, extract_text_from_pdf, extract_text_with_ocr, hc]
    | ok ps =>
      by_cases hc : fallbackCond (directText pages) <;>
        simp [acquireText, extract_text_from_pdf, extract_text_with_ocr, hc]

/-- Claim C3 (witness). -/
theorem C3_fatal_on_attempted_path_witness :
    acquireText .err (.ok [("x".toList)]) = .error () :=
  (C3_fatal_on_attempted_path .err (.ok [("x".toList)])).mpr (Or.inl rfl)

/-- Claim C4: when the direct text layer is non-empty after trimming and does
not begin with the "%PDF" marker, the direct text is used and the OCR oracle
is never consulted (the result is the same for every OCR outcome); when the
trimmed text is empty or begins with the marker, the direct result is
discarded and the OCR acquisition is used instead. -/
theorem C4_ocr_is_pure_fallback (pages : List (Option (List Char))) (o o' : OcrResult) :
    (fallbackCond (directText pages) = false →
      acquireText (.ok pages) o = .ok (directText pages) ∧
      acquireText (.ok pages) o = acquireText (.ok pages) o') ∧
    (fallbackCond (directText pages) = true →
      acquireText (.ok pages) o = extract_text_with_ocr o) := by
  constructor <;> intro hc <;> simp [acquireText, extract_text_from_pdf, hc]

/-- Claim C4 (witness): a document with the text layer "Hello" never falls
back to OCR; a document with a whitespace text layer does. -/
theorem C4_ocr_is_pure_fallback_witness :
    acquireText (.ok [some ("Hello".toList)]) .err = .ok (directText [some ("Hello".toList)]) ∧
    acquireText (.ok [some ("  ".toList)]) (.ok [("x".toList)]) =
      extract_text_with_ocr (.ok [("x".toList)]) :=
  ⟨((C4_ocr_is_pure_fallback [some ("Hello".toList)] .err .err).1 (by decide)).1,
   (C4_ocr_is_pure_fallback [some ("  ".toList)] (.ok [("x".toList)]) .err).2 (by decide)⟩

/-- Claim C5: the first heading candidate that yields a truthy extraction
produces the result of `extract_section_multiple`, whatever candidates follow
it; and on the text of scenario 3 the locator succeeds via the later
candidate "Graded Work:" while "Grade Evaluation:" does not match. -/
theorem C5_first_matching_heading_wins (text h : List Char) (hs hs' : List (List Char))
    (s : List Char) (hm : extract_section text h = some s) (hne : s ≠ []) :
    extract_section_multiple text (h :: hs) = some s ∧
    extract_section_multiple text (h :: hs) = extract_section_multiple text (h :: hs') ∧
    extract_section_multiple gradedWorkText
      [("Grade Evaluation:".toList), ("Graded Work:".toList)] =
      some ("Homework 50%".toList) ∧
    extract_section gradedWorkText ("Grade Evaluation:".toList) = none ∧
    extract_section gradedWorkText ("Graded Work:".toList) = some ("Homework 50%".toList) := by
  have h1 : extract_section_multiple text (h :: hs) = some s :=
    firstTruthy_cons_truthy hm hne hs
  have h2 : extract_section_multiple text (h :: hs') = some s :=
    firstTruthy_cons_truthy hm hne hs'
  exact ⟨h1, h1.trans h2.symm, by decide, by decide, by decide⟩

/-- Claim C5 (witness). -/
theorem C5_first_matching_heading_wins_witness :
    extract_section_multiple gradedWorkText
      [("Graded Work:".toList), ("Grade Evaluation:".toList)] =
      some ("Homework 50%".toList) :=
  (C5_first_matching_heading_wins gradedWorkText ("Graded Work:".toList)
    [("Grade Evaluation:".toList)] [] ("Homework 50%".toList)
    (by decide) (by decide)).1

/-- Claim C7: for a spec with (truthy) boundary candidates, when the
boundary-mode loop fails for every heading candidate (a falsy result each
time), the endpoint retries the identical heading candidates with
`extract_section_multiple` in generic-heuristic mode; a spec without boundary
candidates is located directly in generic-heuristic mode. -/
theorem C7_generic_fallback (text : List Char) (hs : List (List Char))
    (bs : List (List Char)) (hbs : bs ≠ [])
    (hfail : ∀ h ∈ hs,
      extract_section_with_boundaries text h bs = none ∨
      extract_section_with_boundaries text h bs = some []) :
    processSpecText text hs (some bs) = extract_section_multiple text hs ∧
    processSpecText text hs none = extract_section_multiple text hs := by
  constructor
  · rw [processSpecText]
    rw [if_neg (by simp [List.isEmpty_eq_false.mpr hbs])]
    rw [firstTruthy_eq_none_of hfail]
  · rfl

/-- Claim C7 (witness): a document containing no heading at all fails the
boundary pass, and the generic retry is what produces the (here `none`)
outcome. -/
theorem C7_generic_fallback_witness :
    processSpecText ("nothing here".toList) [("Graded Work:".toList)]
      (some [("Grading Scale".toList)]) =
      extract_section_multiple ("nothing here".toList) [("Graded Work:".toList)] :=
  (C7_generic_fallback ("nothing here".toList) [("Graded Work:".toList)]
    [("Grading Scale".toList)] (by decide) (by decide)).1

/-- Claim C10: the locator never returns the empty string — a matched heading
whose trimmed span is empty is treated exactly like a failed match (the next
candidate is tried, in both the generic and the boundary loop), and the
boundary phase of the per-spec orchestration likewise never produces the
empty string. -/
theorem C10_empty_result_is_not_found (text h : List Char) (hs : List (List Char))
    (bs : List (List Char)) :
    (∀ s, extract_section_multiple text hs = some s → s ≠ []) ∧
    (extract_section text h = some [] →
      extract_section_multiple text (h :: hs) = extract_section_multiple text hs) ∧
    (extract_section_with_boundaries text h bs = some [] →
      firstTruthy (fun g => extract_section_with_boundaries text g bs) (h :: hs) =
        firstTruthy (fun g => extract_section_with_boundaries text g bs) hs) ∧
    (∀ s, processSpecText text hs (some bs) = some s → s ≠ []) := by
  refine ⟨fun s hse => firstTruthy_ne_nil hse,
    fun hemp => firstTruthy_cons_falsy (Or.inr hemp),
    fun hemp => firstTruthy_cons_falsy (Or.inr hemp),
    fun s hse => ?_⟩
  rw [processSpecText] at hse
  by_cases hbe : bs.isEmpty
  · rw [if_pos hbe] at hse
    exact firstTruthy_ne_nil hse
  · rw [if_neg hbe] at hse
    cases hft : firstTruthy (fun g => extract_section_with_boundaries text g bs) hs with
    | none => rw [hft] at hse; exact firstTruthy_ne_nil hse
    | some v =>
      rw [hft] at hse
      cases hse
      exact firstTruthy_ne_nil hft

/-- Claim C10 (witness): "End:" matches in `"End:\n"` but captures an empty
span, so the candidate behaves exactly as if it had not matched. -/
theorem C10_empty_result_is_not_found_witness :
    extract_section_multiple ("End:\n".toList) [("End:".toList), ("Homework:".toList)] =
      extract_section_multiple ("End:\n".toList) [("Homework:".toList)] :=
  (C10_empty_result_is_not_found ("End:\n".toList) ("End:".toList)
    [("Homework:".toList)] []).2.1 (by decide)

/-- Claim C9: the endpoint result has exactly one entry per configured
spec, in configuration order and keyed by the name of the spec, and the
value of each entry is computed from that spec alone — a NotFound on one
spec cannot drop or alter the entry of a sibling. -/
theorem C9_one_entry_per_spec (text : List Char) :
    (extract_pdf_sections text).length = sectionSpecs.length ∧
    (extract_pdf_sections text).map Prod.fst = sectionSpecs.map SectionSpec.name ∧
    ∀ spec ∈ sectionSpecs,
      (extract_pdf_sections text).lookup spec.name = some (processSpec text spec) := by
  refine ⟨rfl, rfl, ?_⟩
  intro spec hspec
  fin_cases hspec <;> rfl

/-- Claim C9 (witness). -/
theorem C9_one_entry_per_spec_witness :
    (extract_pdf_sections []).length = sectionSpecs.length ∧
    (extract_pdf_sections []).map Prod.fst = sectionSpecs.map SectionSpec.name :=
  ⟨(C9_one_entry_per_spec []).1, (C9_one_entry_per_spec []).2.1⟩

/-- Claim C2 (amended): in generic-heuristic mode the section ends at the
offset of the line break introducing the earliest following line that begins
with two letters, matched case-insensitively because the `(?i)` flag of the
source pattern also governs the lookahead classes `[A-Z][a-z]` — so a line
beginning with two lowercase or two uppercase letters also terminates the
section; when no such line exists after the heading-match end, the section
ends at end-of-text.  The end offset is never before the start offset and
never past end-of-text, the lookahead pattern holds exactly at it when it is
not end-of-text, and at no earlier offset of the section. -/
theorem C2_generic_end_amended (text : List Char) (start : Nat)
    (hstart : start ≤ text.length) :
    start ≤ resolveEndGeneric text start ∧
    resolveEndGeneric text start ≤ text.length ∧
    (resolveEndGeneric text start < text.length →
      genericOccursAt text (resolveEndGeneric text start) = true) ∧
    (∀ u, start ≤ u → u < resolveEndGeneric text start →
      genericOccursAt text u = false) := by
  have hre : resolveEndGeneric text start =
      start + captureLen lookaheadGeneric (text.drop start) := rfl
  have hkle : captureLen lookaheadGeneric (text.drop start) ≤ (text.drop start).length :=
    captureLen_le_length _ _
  have hlen : (text.drop start).length = text.length - start := List.length_drop _ _
  refine ⟨by omega, by omega, ?_, ?_⟩
  · intro hlt
    rw [hre] at hlt ⊢
    have hk2 : captureLen lookaheadGeneric (text.drop start) < (text.drop start).length := by
      omega
    have hlook := look_at_captureLen hk2
    rw [List.drop_drop] at hlook
    exact (lookaheadGeneric_eq_occursAt (by omega)).symm.trans hlook
  · intro u hsu hult
    rw [hre] at hult
    have hj : u - start < captureLen lookaheadGeneric (text.drop start) := by omega
    have hlook := captureLen_min hj
    rw [List.drop_drop] at hlook
    have harg : start + (u - start) = u := by omega
    rw [harg] at hlook
    exact (lookaheadGeneric_eq_occursAt (by omega)).symm.trans hlook

/-- Claim C2 (amended, witness). -/
theorem C2_generic_end_amended_witness :
    10 ≤ resolveEndGeneric lowerLineText 10 ∧
    resolveEndGeneric lowerLineText 10 ≤ lowerLineText.length :=
  ⟨(C2_generic_end_amended lowerLineText 10 (by decide)).1,
   (C2_generic_end_amended lowerLineText 10 (by decide)).2.1⟩

/-- Claim C6: in explicit-boundary mode the end offset is determined by a
single combined earliest-occurrence search over all candidates: the capture
stops at the offset of the line break that immediately precedes the earliest
occurrence, at or after the heading-match end, of any boundary candidate at a
line start (since the result is trimmed, the section text is the same whether
the end is counted at the line break or at the candidate itself).  The end
offset is never before the start offset and never past end-of-text; when it
is not end-of-text a line-break-plus-candidate occurrence begins exactly
there, and no such occurrence begins anywhere earlier in the section — in
particular the end is end-of-text when no candidate occurs at a line start
after the start offset.  On the scenario-2 text of the spec the extraction
correspondingly stops before "Attendance Policy". -/
theorem C6_combined_earliest_boundary (text : List Char) (start : Nat)
    (bs : List (List Char)) (hbs : bs ≠ []) (hstart : start ≤ text.length) :
    start ≤ resolveEndBoundaries text start bs ∧
    resolveEndBoundaries text start bs ≤ text.length ∧
    (resolveEndBoundaries text start bs < text.length →
      boundaryOccursAt text (resolveEndBoundaries text start bs) bs = true) ∧
    (∀ u, start ≤ u → u < resolveEndBoundaries text start bs →
      boundaryOccursAt text u bs = false) ∧
    extract_section_with_boundaries gradingScaleText ("Grading Scale:".toList)
      [("Attendance".toList), ("Course Policies".toList)] =
      some ("A 90-100\nB 80-89".toList) := by
  have hre : resolveEndBoundaries text start bs =
      start + captureLen (lookaheadBoundary bs) (text.drop start) := rfl
  have hkle : captureLen (lookaheadBoundary bs) (text.drop start) ≤
      (text.drop start).length := captureLen_le_length _ _
  have hlen : (text.drop start).length = text.length - start := List.length_drop _ _
  refine ⟨by omega, by omega, ?_, ?_, by decide⟩
  · intro hlt
    rw [hre] at hlt ⊢
    have hk2 : captureLen (lookaheadBoundary bs) (text.drop start) <
        (text.drop start).length := by omega
    have hlook := look_at_captureLen hk2
    rw [List.drop_drop] at hlook
    exact (lookaheadBoundary_eq_occursAt hbs (by omega)).symm.trans hlook
  · intro u hsu hult
    rw [hre] at hult
    have hj : u - start < captureLen (lookaheadBoundary bs) (text.drop start) := by omega
    have hlook := captureLen_min hj
    rw [List.drop_drop] at hlook
    have harg : start + (u - start) = u := by omega
    rw [harg] at hlook
    exact (lookaheadBoundary_eq_occursAt hbs (by omega)).symm.trans hlook

/-- Claim C6 (witness): on the scenario-2 text with capture start 15 (just
after "Grading Scale:\n"). -/
theorem C6_combined_earliest_boundary_witness :
    15 ≤ resolveEndBoundaries gradingScaleText 15
      [("Attendance".toList), ("Course Policies".toList)] ∧
    resolveEndBoundaries gradingScaleText 15
      [("Attendance".toList), ("Course Policies".toList)] ≤ gradingScaleText.length :=
  ⟨(C6_combined_earliest_boundary gradingScaleText 15
      [("Attendance".toList), ("Course Policies".toList)] (by decide) (by decide)).1,
   (C6_combined_earliest_boundary gradingScaleText 15
      [("Attendance".toList), ("Course Policies".toList)] (by decide) (by decide)).2.1⟩

/-- Claim C8: the late-policy filter keeps exactly the lines whose lowercased
content contains "late" or "penalty" as a substring, each trimmed, rejoined
with line breaks in their original relative order (the kept lines form a
sublist of the input lines, so no line is introduced); when no line matches
the result is the empty string. -/
theorem C8_keyword_filter (t : List Char) :
    splitlines (filter_late_policy t) =
      ((splitlines t).filter keepLine).map stripChars ∧
    ((splitlines t).filter keepLine).Sublist (splitlines t) ∧
    ((∀ l ∈ splitlines t, keepLine l = false) → filter_late_policy t = []) := by
  refine ⟨?_, List.filter_sublist _, ?_⟩
  · rw [filter_late_policy]
    apply splitlines_intercalate
    intro m hm
    obtain ⟨l, hlmem, rfl⟩ := List.mem_map.mp hm
    have hl : l ∈ splitlines t := (List.mem_filter.mp hlmem).1
    have hk : keepLine l = true := (List.mem_filter.mp hlmem).2
    exact ⟨fun c hc => splitlines_no_break t l hl c (mem_of_mem_stripChars hc),
      keep_strip_ne_nil hk⟩
  · intro hnone
    rw [filter_late_policy,
      List.filter_eq_nil_iff.mpr (fun a ha => by simp [hnone a ha])]
    rfl

/-- Claim C8 (witness): a text with no keyword line filters to the empty
string. -/
theorem C8_keyword_filter_witness : filter_late_policy ("abc".toList) = [] :=
  (C8_keyword_filter ("abc".toList)).2.2 (by decide)

end PdfTester

